import Mathlib

/-!
Verification of the playback/sequencing core of the "performative" VS Code
extension.  The definitions below are a shallow embedding of the TypeScript
sources:

* `Director` embeds `src/unnamed/part_001` (the revision with per-file
  cursor tracking and random file switching); strings are modelled as
  `List Char`, JavaScript array indexing as `List.getD` (all claims are
  about well-formed states where indices are in range).
* `Math.floor(Math.random() * n)`, which yields an arbitrary value in
  `[0, n)`, is modelled by an externally supplied `r : Nat` used as
  `r % n`; theorems quantify over all `r`.
* `ProblemManager.getRandomProblem()` is modelled by an externally
  supplied `Option Problem` argument.
-/

namespace Performative

/-- `FileContent` from `problemManager.ts` (part_002). -/
structure FileContent where
  filename : String
  content : List Char
deriving DecidableEq

instance : Inhabited FileContent := ⟨⟨"", []⟩⟩

/-- The `Problem` tagged union from `problemManager.ts` (part_002):
single-file (HumanEval style) or multi-file. -/
inductive Problem where
  | single (task_id : String) (prompt canonical_solution test : List Char)
      (entry_point : String)
  | multi (task_id : String) (description : String) (files : List FileContent)
      (entry_file : String)
deriving DecidableEq

/-- `isMultiFileProblem` type guard (part_002). -/
def isMultiFileProblem : Problem → Bool
  | .multi .. => true
  | .single .. => false

/-- `isSingleFileProblem` type guard (part_002). -/
def isSingleFileProblem : Problem → Bool
  | .single .. => true
  | .multi .. => false

/-- `ProblemManager.getRunnableCodeForSingleFile` (part_002): prompt +
canonical solution + test + generated harness, pure text assembly. -/
def getRunnableCodeForSingleFile (prompt canonical_solution test : List Char)
    (entry_point : String) : List Char :=
  prompt ++ canonical_solution ++ ("\n\n").data ++ test ++
    ("\n\n# Run the tests\ntry:\n    check(").data ++ entry_point.data ++
    (")\n    print(\"Success\")\nexcept AssertionError as e:\n    print(f\"Failed: {e}\")\nexcept Exception as e:\n    print(f\"Failed with error: {e}\")\n").data

/-- `FileScript` record from `part_001`. -/
structure FileScript where
  filename : String
  content : List Char
deriving DecidableEq

instance : Inhabited FileScript := ⟨⟨"", []⟩⟩

/-- The result of `Director.getNextChar` in `part_001`: a literal character,
or one of the sentinel strings `NEXT_FILE` / `EXECUTE_SCENE` (a one-character
return value can never collide with the sentinels, so a sum type is a
faithful embedding). -/
inductive EmitResult where
  | char (c : Char)
  | nextFile
  | executeScene
deriving DecidableEq

/-- The mutable fields of the `Director` class in `part_001`. -/
structure Director where
  currentProblem : Option Problem := none
  isActive : Bool := false
  script : List Char := []
  bufferIndex : Nat := 0
  fileScripts : List FileScript := []
  currentFileIndex : Nat := 0
  entryFile : String := ""
  fileBufferIndices : List Nat := []
deriving DecidableEq

/-- The state of a freshly constructed `Director` (part_001 field
initializers). -/
def initialDirector : Director := {}

namespace Director

/-- `Director.isMultiFile` (part_001). -/
def isMultiFile (d : Director) : Bool :=
  match d.currentProblem with
  | some p => isMultiFileProblem p
  | none => false

/-- `Director.getIsActive` (part_001). -/
def getIsActive (d : Director) : Bool := d.isActive

/-- `Director.startNewScene` (part_001).  The problem returned by
`problemManager.getRandomProblem()` is passed in as `p?` (`none` models an
empty catalog, in which case the method logs and returns `false` without
touching the state). -/
def startNewScene (p? : Option Problem) (d : Director) : Bool × Director :=
  match p? with
  | none => (false, d)
  | some problem =>
    let d1 : Director :=
      { d with currentProblem := some problem, bufferIndex := 0, currentFileIndex := 0 }
    match problem with
    | .single _ prompt canonical_solution test entry_point =>
      (true, { d1 with
                script := getRunnableCodeForSingleFile prompt canonical_solution test entry_point,
                fileScripts := [], fileBufferIndices := [], entryFile := "" })
    | .multi _ _ files entry_file =>
      let fs := files.map (fun f => FileScript.mk f.filename f.content)
      (true, { d1 with
                fileScripts := fs,
                fileBufferIndices := fs.map (fun _ => 0),
                entryFile := entry_file,
                script := ((fs.head?).map (fun f => f.content)).getD [] })

/-- `Director.toggle` (part_001): flip `isActive`; when toggling on with no
current problem, start the first scene.  Returns the new `isActive`. -/
def toggle (p? : Option Problem) (d : Director) : Bool × Director :=
  let d1 : Director := { d with isActive := !d.isActive }
  if d1.isActive && d1.currentProblem.isNone then
    let d2 := (startNewScene p? d1).2
    (d2.isActive, d2)
  else
    (d1.isActive, d1)

/-- `Director.areAllFilesComplete` (part_001). -/
def areAllFilesComplete (d : Director) : Bool :=
  if !d.isMultiFile then
    decide (d.script.length ≤ d.bufferIndex)
  else
    d.fileScripts.enum.all
      (fun p => decide ((p.2).content.length ≤ d.fileBufferIndices.getD p.1 0))

/-- `Director.getNextChar` (part_001): in multi-file mode, use the per-file
cursor of the current file; emit its next character and advance it, or signal
`NEXT_FILE` / `EXECUTE_SCENE` when exhausted.  Single-file mode uses the plain
`bufferIndex` buffer. -/
def getNextChar (d : Director) : EmitResult × Director :=
  if d.isMultiFile then
    let currentIndex := d.fileBufferIndices.getD d.currentFileIndex 0
    if d.script.length ≤ currentIndex then
      if d.areAllFilesComplete then (.executeScene, d) else (.nextFile, d)
    else
      (.char (d.script.getD currentIndex default),
       { d with fileBufferIndices :=
           d.fileBufferIndices.set d.currentFileIndex (currentIndex + 1) })
  else
    if d.script.length ≤ d.bufferIndex then
      (.executeScene, d)
    else
      (.char (d.script.getD d.bufferIndex default),
       { d with bufferIndex := d.bufferIndex + 1 })

/-- `Director.isCurrentFileComplete` (part_001). -/
def isCurrentFileComplete (d : Director) : Bool :=
  if d.isMultiFile then
    decide (d.script.length ≤ d.fileBufferIndices.getD d.currentFileIndex 0)
  else
    decide (d.script.length ≤ d.bufferIndex)

/-- `Director.getIncompleteFileIndices` (part_001): indices of files whose
cursor has not reached the file's content length. -/
def getIncompleteFileIndices (d : Director) : List Nat :=
  if !d.isMultiFile then
    []
  else
    ((d.fileScripts.enum.map
        (fun p => (p.1, decide ((p.2).content.length ≤ d.fileBufferIndices.getD p.1 0)))).filter
      (fun q => !q.2)).map (fun q => q.1)

/-- `Director.switchToFile` (part_001): set the current file index and load
its content into `script`.  (The JavaScript `fileIndex < 0` guard is vacuous
for `Nat`.) -/
def switchToFile (fileIndex : Nat) (d : Director) : Option FileScript × Director :=
  if !d.isMultiFile || decide (d.fileScripts.length ≤ fileIndex) then
    (none, d)
  else
    let fs := d.fileScripts.getD fileIndex default
    (some fs, { d with currentFileIndex := fileIndex, script := fs.content })

/-- `Director.switchToRandomIncompleteFile` (part_001): pick a random
incomplete file, preferring one different from the current file.
`Math.floor(Math.random() * candidates.length)` is modelled as
`r % candidates.length`. -/
def switchToRandomIncompleteFile (r : Nat) (d : Director) :
    Option FileScript × Director :=
  let incompleteIndices := d.getIncompleteFileIndices
  if incompleteIndices.isEmpty then
    (none, d)
  else
    let candidates0 := incompleteIndices.filter (fun i => !decide (i = d.currentFileIndex))
    let candidates := if candidates0.isEmpty then incompleteIndices else candidates0
    let randomIndex := candidates.getD (r % candidates.length) 0
    d.switchToFile randomIndex

/-- `Director.advanceToNextFile` (part_001): delegates to random switching. -/
def advanceToNextFile (r : Nat) (d : Director) : Option FileScript × Director :=
  d.switchToRandomIncompleteFile r

/-- `Director.getCurrentFile` (part_001). -/
def getCurrentFile (d : Director) : Option FileScript :=
  if d.isMultiFile && decide (d.currentFileIndex < d.fileScripts.length) then
    some (d.fileScripts.getD d.currentFileIndex default)
  else
    none

/-- `Director.isAtLineEnd` (part_001): the last emitted character was a
newline, or the cursor is at position 0.  For an out-of-range index the
JavaScript `script[current - 1]` is `undefined`, which compares unequal to
`'\n'`; the default `'A'` of `getD` is likewise unequal to `'\n'`. -/
def isAtLineEnd (d : Director) : Bool :=
  let current :=
    if d.isMultiFile then d.fileBufferIndices.getD d.currentFileIndex 0
    else d.bufferIndex
  if current = 0 then true
  else decide (d.script.getD (current - 1) default = '\n')

/-- Well-formed multi-file playback states: the cursor list is aligned with
the file list, the current index is in range, `script` mirrors the current
file's content (maintained by `startNewScene` / `switchToFile`), and every
cursor is bounded by its file's length. -/
def WF (d : Director) : Prop :=
  d.fileBufferIndices.length = d.fileScripts.length ∧
  (d.isMultiFile = true →
    d.currentFileIndex < d.fileScripts.length ∧
    d.script = (d.fileScripts.getD d.currentFileIndex default).content) ∧
  (∀ i, i < d.fileScripts.length →
    d.fileBufferIndices.getD i 0 ≤ (d.fileScripts.getD i default).content.length)

instance (d : Director) : Decidable d.WF := by
  unfold Director.WF; infer_instance

/-- Total number of characters still to emit across all files. -/
def totalRemaining (d : Director) : Nat :=
  ∑ i ∈ Finset.range d.fileScripts.length,
    ((d.fileScripts.getD i default).content.length - d.fileBufferIndices.getD i 0)

end Director

/-- One driver loop around `getNextChar` as performed by the extension:
a plain character is recorded (tagged with the index of the file it belongs
to), `NEXT_FILE` triggers the file-advance operation, `EXECUTE_SCENE` stops.
`rnd` supplies the random draws, `k` counts the calls made so far. -/
def runScene (rnd : Nat → Nat) : Nat → Nat → Director →
    List (Nat × Char) × Bool × Director
  | 0, _, d => ([], false, d)
  | fuel + 1, k, d =>
    match d.getNextChar with
    | (.char c, d1) =>
      let rest := runScene rnd fuel (k + 1) d1
      ((d.currentFileIndex, c) :: rest.1, rest.2)
    | (.nextFile, d1) =>
      runScene rnd fuel (k + 1) (d1.advanceToNextFile (rnd k)).2
    | (.executeScene, d1) => ([], true, d1)

/-- The characters recorded for file index `i`, in emission order. -/
def emittedFor (i : Nat) (tr : List (Nat × Char)) : List Char :=
  (tr.filter (fun p => p.1 == i)).map (fun p => p.2)

/-! ### Typing-path model (extension.ts, second revision / part_003)

State shared between the auto-type path and the distraction scheduler:
the `Director` plus the module-level `pendingFileSwitch` flag.
Each async callback is modelled as one atomic step (the extension runs on
the single-threaded event loop, and the latest revision guards
`autoTypeNextChar` with the `isAutoTyping` lock). -/

structure TypingState where
  d : Director
  pendingFileSwitch : Bool
deriving DecidableEq

/-- The `custom:switchFile` GUI action (extension.ts line 453 area):
schedule a file switch for the next newline; the director is untouched. -/
def guiSwitchFileAction (s : TypingState) : TypingState :=
  if s.d.isMultiFile && !s.d.isCurrentFileComplete then
    { s with pendingFileSwitch := true }
  else s

/-- One tick of `autoTypeNextChar` (extension.ts lines 1401-1502, non-diff
path): pull one unit from the Director; on `NEXT_FILE` run `handleNextFile`
(which calls `advanceToNextFile`); on `EXECUTE_SCENE` stop; on a plain
character insert it, and if it was a newline while `pendingFileSwitch` is
set, clear the flag and run `handleRandomFileSwitch` (which calls
`switchToRandomIncompleteFile`).  The second component records the director
state at the instant `handleRandomFileSwitch` is invoked (after the emission,
before the switch), i.e. each distraction-triggered switch event. -/
def autoTick (r : Nat) (s : TypingState) : TypingState × Option Director :=
  match s.d.getNextChar with
  | (.nextFile, d1) => (⟨(d1.advanceToNextFile r).2, s.pendingFileSwitch⟩, none)
  | (.executeScene, d1) => (⟨d1, s.pendingFileSwitch⟩, none)
  | (.char c, d1) =>
    if c == '\n' && s.pendingFileSwitch && d1.isMultiFile then
      (⟨(d1.switchToRandomIncompleteFile r).2, false⟩, some d1)
    else
      (⟨d1, s.pendingFileSwitch⟩, none)

/-! ### Keystroke/event arbiter model (part_003)

The module-level queue and flags of `extension.ts` (part_003 revision),
with ghost history fields (`arrivals`, `running`, `processed`) recording
trigger identities in order to state the FIFO / single-writer properties.
Each atomic block between `await` suspension points is one step:
`procStart` is the head of `processNextKeystroke` up to `await task()`
(lines 1215-1222), `procFinish` the tail (lines 1232-1238);
`procFinishRequeue` models the diff-mode path that `unshift`s the
in-flight trigger's continuation back onto the front of the queue
(part_003 line 2007).  Task bodies are abstracted to their identities;
`docRevision` counts document mutations. -/

structure ArbState where
  keystrokeQueue : List Nat := []
  isProcessingKeystroke : Bool := false
  isPerformingGuiAction : Bool := false
  isExecutingScene : Bool := false
  isGeneratingExtension : Bool := false
  autoTypeInterval : Bool := false
  isAutoTypeMode : Bool := false
  directorActive : Bool := false
  typeCommandRegistered : Bool := false
  docRevision : Nat := 0
  arrivals : List Nat := []
  running : List Nat := []
  processed : List Nat := []
deriving DecidableEq

/-- Initial module state of the extension. -/
def arbInit : ArbState := {}

/-- One tick of `autoTypeNextChar` at arbiter granularity (part_003 lines
1656-1800): skip entirely while a GUI action, scene execution or extension
generation is in flight; stop the timer when the director is no longer
active; otherwise perform one unit of director-driven document work. -/
def autoTypeTick (s : ArbState) : ArbState :=
  if s.isPerformingGuiAction || s.isExecutingScene || s.isGeneratingExtension then
    s
  else if !s.directorActive then
    { s with autoTypeInterval := false, isAutoTypeMode := false }
  else
    { s with docRevision := s.docRevision + 1 }

/-- The deactivation branch of the `performative.toggle` command handler
(part_003 lines 1525-1530): `director.toggle()` has flipped the director
inactive; the branch updates the status bar, restores editor settings and
unregisters the type command.  It does not touch `keystrokeQueue` and does
not call `stopAutoType`. -/
def toggleOffDeactivation (s : ArbState) : ArbState :=
  { s with directorActive := false, typeCommandRegistered := false }

/-- The exported `deactivate()` hook (extension.ts lines 1998-2005):
`stopAutoType()`, restore settings, unregister the type command, clear the
keystroke queue, drop the director. -/
def deactivateExtension (s : ArbState) : ArbState :=
  { s with autoTypeInterval := false, isAutoTypeMode := false,
           typeCommandRegistered := false, keystrokeQueue := [],
           directorActive := false }

/-- Atomic transitions of the arbiter.  Trigger identities are assigned in
arrival order (`s.arrivals.length` is the next fresh id). -/
inductive ArbStep : ArbState → ArbState → Prop where
  | keystroke {s : ArbState} :
      ArbStep s { s with
        keystrokeQueue := s.keystrokeQueue ++ [s.arrivals.length],
        arrivals := s.arrivals ++ [s.arrivals.length] }
  | procStart {s : ArbState} (t : Nat) (rest : List Nat) :
      s.isPerformingGuiAction = false → s.isProcessingKeystroke = false →
      s.keystrokeQueue = t :: rest →
      ArbStep s { s with
        isProcessingKeystroke := true,
        keystrokeQueue := rest,
        running := s.running ++ [t] }
  | procFinish {s : ArbState} (t : Nat) :
      s.running = [t] →
      ArbStep s { s with
        isProcessingKeystroke := false,
        running := [],
        processed := s.processed ++ [t],
        docRevision := s.docRevision + 1 }
  | procFinishRequeue {s : ArbState} (t : Nat) :
      s.running = [t] →
      ArbStep s { s with
        isProcessingKeystroke := false,
        running := [],
        keystrokeQueue := t :: s.keystrokeQueue }
  | guiStart {s : ArbState} :
      s.isPerformingGuiAction = false →
      ArbStep s { s with isPerformingGuiAction := true }
  | guiEnd {s : ArbState} :
      ArbStep s { s with isPerformingGuiAction := false }
  | sceneStart {s : ArbState} :
      ArbStep s { s with isExecutingScene := true }
  | sceneEnd {s : ArbState} :
      ArbStep s { s with isExecutingScene := false }
  | genStart {s : ArbState} :
      ArbStep s { s with isGeneratingExtension := true }
  | genEnd {s : ArbState} :
      ArbStep s { s with isGeneratingExtension := false }
  | startAuto {s : ArbState} :
      ArbStep s { s with autoTypeInterval := true, isAutoTypeMode := true }
  | stopAuto {s : ArbState} :
      ArbStep s { s with autoTypeInterval := false, isAutoTypeMode := false }
  | tick {s : ArbState} :
      s.autoTypeInterval = true →
      ArbStep s (autoTypeTick s)
  | toggleOff {s : ArbState} :
      ArbStep s (toggleOffDeactivation s)
  | toggleOn {s : ArbState} :
      ArbStep s { s with directorActive := true, typeCommandRegistered := true }

/-- States reachable from the freshly activated extension. -/
inductive ArbReachable : ArbState → Prop where
  | init : ArbReachable arbInit
  | step {s s' : ArbState} : ArbReachable s → ArbStep s s' → ArbReachable s'

/-! ### Problem catalog loading (`ProblemManager.loadProblems`, part_002)

Text is modelled as `List Char`.  `JSON.parse` is an external library call,
modelled abstractly: `parseDoc` is `JSON.parse` applied to the whole file
(`none` = throws, `.nonArray` = parses but `Array.isArray` is false,
`.arr` = a JSON array of records), `parseLine` is `JSON.parse` applied to
one line. -/

/-- JavaScript whitespace as used by `\s` and `String.prototype.trim`
(the characters occurring in the data handled here). -/
def isWsChar (c : Char) : Bool := c == ' ' || c == '\n' || c == '\t' || c == '\r'

/-- `String.prototype.trim`: strip whitespace from both ends. -/
def jsTrim (cs : List Char) : List Char :=
  ((cs.dropWhile isWsChar).reverse.dropWhile isWsChar).reverse

/-- `String.prototype.split('\n')`. -/
def splitOnNewline : List Char → List (List Char)
  | [] => [[]]
  | c :: rest =>
    if c = '\n' then [] :: splitOnNewline rest
    else
      match splitOnNewline rest with
      | l :: ls => (c :: l) :: ls
      | [] => [[c]]

/-- A raw JSON record as consumed by `normalizeProblem`; `none` models an
absent field. -/
structure RawProblem where
  task_id : Option String := none
  prompt : Option (List Char) := none
  canonical_solution : Option (List Char) := none
  test : Option (List Char) := none
  entry_point : Option String := none
  description : Option String := none
  files : Option (List FileContent) := none
  entry_file : Option String := none
deriving DecidableEq

/-- `ProblemManager.normalizeProblem` (part_002): a record with a `files`
array is a multi-file problem, otherwise single-file.  Absent string fields
normalize to `""` (the source's `|| ''` / undefined cast). -/
def normalizeProblem (raw : RawProblem) : Problem :=
  match raw.files with
  | some fs =>
    .multi (raw.task_id.getD "") (raw.description.getD "") fs (raw.entry_file.getD "")
  | none =>
    .single (raw.task_id.getD "") (raw.prompt.getD []) (raw.canonical_solution.getD [])
      (raw.test.getD []) (raw.entry_point.getD "")

/-- Outcome of `JSON.parse` on the whole dataset file. -/
inductive JsonDoc where
  | arr (records : List RawProblem)
  | nonArray
deriving DecidableEq

/-- `ProblemManager.loadProblems` (part_002 lines 49-83), file reading
elided: try the whole content as a JSON array; on a parse failure or a
non-array result, fall through to JSONL mode, where each non-blank line is
parsed individually and unparseable lines are skipped (the `catch` only
logs).  Total by construction — the load never throws. -/
def loadProblems (parseDoc : List Char → Option JsonDoc)
    (parseLine : List Char → Option RawProblem) (fileContent : List Char) :
    List Problem :=
  match parseDoc fileContent with
  | some (.arr records) => records.map normalizeProblem
  | _ =>
    let lines := (splitOnNewline fileContent).filter (fun line => !(jsTrim line == []))
    lines.filterMap (fun line => (parseLine line).map normalizeProblem)

/-! ### Generator-response parsing (`groqGenerator.ts` lines 110-143)

Response text is modelled as `List Char`; `JSON.parse` on a candidate
fragment is the abstract `jparse : List Char → Option RawProblem`
(`none` = throws). -/

/-- Does the text begin with a literal ``` fence? -/
def fenceHere (cs : List Char) : Bool := cs.take 3 == ['`', '`', '`']

/-- Does the text contain a ``` fence anywhere? -/
def containsFence : List Char → Bool
  | [] => false
  | c :: rest => fenceHere (c :: rest) || containsFence rest

/-- Lazy group of `([\s\S]*?)` up to the next closing ``` fence: the prefix
before the first fence occurrence, or `none` if the fence never closes. -/
def fenceClose : List Char → Option (List Char)
  | [] => none
  | c :: rest =>
    if fenceHere (c :: rest) then some []
    else (fenceClose rest).map (fun g => c :: g)

/-- After an opening ``` has been consumed: `(?:json)?` (greedy), `\s*`
(greedy), then the lazy group up to the closing fence.  Greedy/lazy
backtracking cannot change matchability here because neither `json` nor
whitespace can contain a backtick. -/
def fenceGroupAfterOpen (cs : List Char) : Option (List Char) :=
  let cs1 := if cs.take 4 == ['j', 's', 'o', 'n'] then cs.drop 4 else cs
  fenceClose (cs1.dropWhile isWsChar)

/-- First match of the regex ```` /```(?:json)?\s*([\s\S]*?)```/ ````:
scan left to right for an opening fence that also closes, returning the
captured group. -/
def fenceExtract : List Char → Option (List Char)
  | [] => none
  | c :: rest =>
    if fenceHere (c :: rest) then
      match fenceGroupAfterOpen (rest.drop 2) with
      | some g => some g
      | none => fenceExtract rest
    else fenceExtract rest

/-- The prose fallback: `text.substring(text.indexOf(openBrace),
text.lastIndexOf(closeBrace) + 1)`.  JavaScript `substring` swaps its
arguments when start exceeds end. -/
def braceSlice (cs : List Char) : Option (List Char) :=
  match cs.indexOf? '\x7b', cs.reverse.indexOf? '\x7d' with
  | some i, some rj =>
    let j := cs.length - 1 - rj
    let a := min i (j + 1)
    let b := max i (j + 1)
    some ((cs.drop a).take (b - a))
  | _, _ => none

/-- The JSON-extraction fallbacks of `generateMultiFileProblem`
(groqGenerator.ts lines 110-129): raw `JSON.parse`; else the fenced-block
regex (a parse failure of the extracted group propagates — there is no
further fallback); else the first-brace/last-brace slice. -/
def extractProblemJson (jparse : List Char → Option RawProblem)
    (text : List Char) : Option RawProblem :=
  match jparse text with
  | some p => some p
  | none =>
    match fenceExtract text with
    | some g => jparse (jsTrim g)
    | none =>
      match braceSlice text with
      | some slice => jparse slice
      | none => none

/-- Validation and normalization of the parsed problem (groqGenerator.ts
lines 131-143): require a truthy `task_id` and a non-empty `files` array;
force `type` to `'multi'`; default a falsy `entry_file` to the last file's
name. -/
def validateGroqProblem (p : RawProblem) : Option Problem :=
  match p.task_id, p.files with
  | some tid, some fs =>
    if tid == "" || fs.isEmpty then none
    else
      let entry :=
        match p.entry_file with
        | some e => if e == "" then ((fs.getLast?).map (fun f => f.filename)).getD "" else e
        | none => ((fs.getLast?).map (fun f => f.filename)).getD ""
      some (.multi tid (p.description.getD "") fs entry)
  | _, _ => none

/-- End-to-end parse of a generator response. -/
def parseGroqResponse (jparse : List Char → Option RawProblem)
    (text : List Char) : Option Problem :=
  (extractProblemJson jparse text).bind validateGroqProblem

/-- The claim's fenced wrapping of a JSON text. -/
def wrapFenced (j : List Char) : List Char :=
  ("```json\n").data ++ j ++ ("\n```").data

/-! ### Concrete fixtures (the spec's two-file scenario and friends) -/

def aPy : FileContent := ⟨"a.py", ("print(1)\n").data⟩

def bPy : FileContent := ⟨"b.py", ("print(2)\n").data⟩

def twoFileProblem : Problem := .multi "demo/two-files" "" [aPy, bPy] "b.py"

/-- The director right after starting a scene on the two-file problem. -/
def demoDirector : Director :=
  (Director.startNewScene (some twoFileProblem) initialDirector).2

/-- The two-file scene after the 9 characters of `a.py` have been emitted:
the current file is exhausted, `b.py` is untouched. -/
def demoMid : Director := { demoDirector with fileBufferIndices := [9, 0] }

/-- The two-file scene with 8 characters of `a.py` emitted (the next one is
the newline) and a latched file-switch request. -/
def demoNL : TypingState :=
  ⟨{ demoDirector with fileBufferIndices := [8, 0] }, true⟩

/-- Arbiter state after one keystroke arrived and its processing started. -/
def arbDemoMid : ArbState :=
  { keystrokeQueue := [], isProcessingKeystroke := true, arrivals := [0],
    running := [0], processed := [] }

/-- Arbiter state with a GUI action in flight. -/
def arbDemoGui : ArbState := { arbInit with isPerformingGuiAction := true }

/-- Arbiter state of an active session: two queued triggers and a running
auto-type timer. -/
def arbDemoActive : ArbState :=
  { arbInit with keystrokeQueue := [0, 1], arrivals := [0, 1],
                 autoTypeInterval := true, isAutoTypeMode := true,
                 directorActive := true, typeCommandRegistered := true }

/-- Toy stand-ins for `JSON.parse` on the dataset file: the whole file never
parses, a line parses exactly when it is the literal record `REC`. -/
def demoParseDoc : List Char → Option JsonDoc := fun _ => none

def demoParseLine : List Char → Option RawProblem :=
  fun line => if line == ("REC").data then some {} else none

/-- A dataset with one malformed line among two valid ones. -/
def demoDataset : List Char := ("REC\nBAD\nREC").data

/-- A well-behaved generator-response JSON text (no fences, already
trimmed). -/
def jDemo : List Char :=
  ("\x7b\"task_id\":\"demo\",\"files\":[\x7b\"filename\":\"a.py\",\"content\":\"x\"\x7d]\x7d").data

/-- The record real `JSON.parse` produces for `jDemo`. -/
def rawDemo : RawProblem :=
  { task_id := some "demo", files := some [⟨"a.py", ('x' :: [])⟩] }

/-- A stand-in for `JSON.parse` agreeing with it on the strings exercised:
it accepts exactly `jDemo` up to edge whitespace. -/
def demoJparse : List Char → Option RawProblem :=
  fun s => if jsTrim s == jDemo then some rawDemo else none

/-- A valid problem JSON whose `task_id` string contains a ``` fence —
legal JSON, but fatal to the fenced-block extraction. -/
def jCex : List Char :=
  ("\x7b\"task_id\":\"t```\",\"files\":[\x7b\"filename\":\"a.py\",\"content\":\"x\"\x7d],\"entry_file\":\"a.py\"\x7d").data

/-- The record real `JSON.parse` produces for `jCex`. -/
def rawCex : RawProblem :=
  { task_id := some "t```", files := some [⟨"a.py", ('x' :: [])⟩],
    entry_file := some "a.py" }

/-- A stand-in for `JSON.parse` agreeing with it on the strings exercised:
it accepts exactly `jCex` up to edge whitespace (`JSON.parse` fails on the
fenced wrapping and on the truncated fragment the fence regex extracts). -/
def cexParse : List Char → Option RawProblem :=
  fun s => if jsTrim s == jCex then some rawCex else none

/-- The problem the validator produces for `rawCex`. -/
def cexProblem : Problem := .multi "t```" "" [⟨"a.py", ('x' :: [])⟩] "a.py"

/-! ## Theorems -/

/-! ### List helpers -/

theorem getD_set_self {l : List Nat} {i v : Nat} (h : i < l.length) :
    (l.set i v).getD i 0 = v := by
  simp [List.getD_eq_getD_get?, List.get?_eq_getElem?, List.getElem?_set_self',
    List.getElem?_eq_getElem h]

theorem getD_set_ne {l : List Nat} {i j v : Nat} (h : j ≠ i) :
    (l.set i v).getD j 0 = l.getD j 0 := by
  simp [List.getD_eq_getD_get?, List.get?_eq_getElem?, List.getElem?_set_ne (Ne.symm h)]

theorem length_filterMap_isSome {α β : Type} (f : α → Option β) (l : List α) :
    (l.filterMap f).length = l.countP (fun a => (f a).isSome) := by
  induction l with
  | nil => rfl
  | cons a l ih => cases h : f a <;> simp [List.filterMap_cons, h, List.countP_cons, ih]

theorem getD_mem {l : List Nat} {i : Nat} (h : i < l.length) : l.getD i 0 ∈ l := by
  rw [List.getD_eq_getElem _ _ h]; exact List.getElem_mem h

/-! ### Director characterizations -/

namespace Director

theorem isMultiFile_eq {d d' : Director} (h : d'.currentProblem = d.currentProblem) :
    d'.isMultiFile = d.isMultiFile := by
  unfold isMultiFile; rw [h]

theorem areAllFilesComplete_iff {d : Director} (hm : d.isMultiFile = true) :
    d.areAllFilesComplete = true ↔
      ∀ i, i < d.fileScripts.length →
        (d.fileScripts.getD i default).content.length ≤ d.fileBufferIndices.getD i 0 := by
  unfold areAllFilesComplete
  simp only [hm, Bool.not_true, Bool.false_eq_true, if_false, List.all_eq_true,
    decide_eq_true_eq]
  constructor
  · intro h i hi
    have := h (i, d.fileScripts.getD i default)
      (List.mk_mem_enum_iff_getElem?.2 (by
        rw [List.getElem?_eq_getElem hi, List.getD_eq_getElem _ _ hi]))
    simpa using this
  · intro h p hp
    have hp' := List.mk_mem_enum_iff_getElem?.1 hp
    have hi : p.1 < d.fileScripts.length := by
      by_contra hge
      rw [List.getElem?_eq_none (by omega)] at hp'
      exact Option.noConfusion hp'
    have hgd : d.fileScripts.getD p.1 default = p.2 := by
      rw [List.getD_eq_getElem _ _ hi]
      have := List.getElem?_eq_getElem hi ▸ hp'
      exact Option.some.inj this
    exact hgd ▸ h p.1 hi

theorem mem_getIncompleteFileIndices {d : Director} {j : Nat} :
    j ∈ d.getIncompleteFileIndices ↔
      d.isMultiFile = true ∧ j < d.fileScripts.length ∧
        d.fileBufferIndices.getD j 0 < (d.fileScripts.getD j default).content.length := by
  unfold getIncompleteFileIndices
  by_cases hm : d.isMultiFile
  · simp only [hm, Bool.not_true, Bool.false_eq_true, if_false, List.mem_map,
      List.mem_filter, true_and]
    constructor
    · rintro ⟨⟨i, b⟩, ⟨⟨⟨i2, f⟩, hget, heq⟩, hb⟩, rfl⟩
      cases heq
      have hp' := List.mk_mem_enum_iff_getElem?.1 hget
      have hi : i2 < d.fileScripts.length := by
        by_contra hge
        rw [List.getElem?_eq_none (by omega)] at hp'
        exact Option.noConfusion hp'
      have hf : d.fileScripts.getD i2 default = f := by
        rw [List.getD_eq_getElem _ _ hi]
        have := List.getElem?_eq_getElem hi ▸ hp'
        exact Option.some.inj this
      refine ⟨hi, ?_⟩
      dsimp only
      rw [hf]
      simp only [Bool.not_eq_true'] at hb
      have := of_decide_eq_false hb
      omega
    · intro ⟨hj, hlt⟩
      refine ⟨(j, false), ⟨⟨(j, d.fileScripts.getD j default), ?_, ?_⟩, by simp⟩, rfl⟩
      · exact List.mk_mem_enum_iff_getElem?.2 (by
          rw [List.getElem?_eq_getElem hj, List.getD_eq_getElem _ _ hj])
      · simp only [Prod.mk.injEq, true_and]
        rw [decide_eq_false_iff_not]
        omega
  · simp only [Bool.not_eq_true] at hm
    simp [hm]

theorem getNextChar_incomplete {d : Director} (hm : d.isMultiFile = true)
    (hlt : d.fileBufferIndices.getD d.currentFileIndex 0 < d.script.length) :
    d.getNextChar =
      (.char (d.script.getD (d.fileBufferIndices.getD d.currentFileIndex 0) default),
       { d with fileBufferIndices := (d.fileBufferIndices.set d.currentFileIndex (d.fileBufferIndices.getD d.currentFileIndex 0 + 1)) }) := by
  unfold getNextChar
  dsimp only
  rw [if_pos hm, if_neg (not_le.mpr hlt)]

theorem getNextChar_complete {d : Director} (hm : d.isMultiFile = true)
    (hge : d.script.length ≤ d.fileBufferIndices.getD d.currentFileIndex 0) :
    d.getNextChar =
      ((if d.areAllFilesComplete then EmitResult.executeScene else EmitResult.nextFile), d) := by
  unfold getNextChar
  dsimp only
  rw [if_pos hm, if_pos hge]
  split <;> rfl

theorem getNextChar_frame (d : Director) :
    (d.getNextChar).2.fileScripts = d.fileScripts ∧
      (d.getNextChar).2.currentFileIndex = d.currentFileIndex ∧
      (d.getNextChar).2.script = d.script ∧
      (d.getNextChar).2.currentProblem = d.currentProblem ∧
      (d.getNextChar).2.isActive = d.isActive := by
  unfold getNextChar
  dsimp only
  split
  · split
    · split <;> exact ⟨rfl, rfl, rfl, rfl, rfl⟩
    · exact ⟨rfl, rfl, rfl, rfl, rfl⟩
  · split
    · exact ⟨rfl, rfl, rfl, rfl, rfl⟩
    · exact ⟨rfl, rfl, rfl, rfl, rfl⟩

theorem switchToFile_spec {d : Director} {j : Nat} (hm : d.isMultiFile = true)
    (hj : j < d.fileScripts.length) :
    d.switchToFile j =
      (some (d.fileScripts.getD j default),
       { d with currentFileIndex := j,
                script := (d.fileScripts.getD j default).content }) := by
  unfold switchToFile
  simp [hm, Nat.not_le.mpr hj]

theorem switchRandom_spec (d : Director) (r : Nat)
    (hne : d.getIncompleteFileIndices ≠ []) :
    ∃ j, j ∈ d.getIncompleteFileIndices ∧
      d.switchToRandomIncompleteFile r =
        (some (d.fileScripts.getD j default),
         { d with currentFileIndex := j,
                  script := (d.fileScripts.getD j default).content }) ∧
      ((∃ i ∈ d.getIncompleteFileIndices, i ≠ d.currentFileIndex) →
        j ≠ d.currentFileIndex) := by
  unfold switchToRandomIncompleteFile
  dsimp only
  have hemp : d.getIncompleteFileIndices.isEmpty = false := by
    simpa [List.isEmpty_iff] using hne
  rw [hemp]
  simp only [Bool.false_eq_true, if_false]
  set inc := d.getIncompleteFileIndices with hinc
  set c0 := inc.filter (fun i => !decide (i = d.currentFileIndex)) with hc0def
  by_cases hc0 : c0.isEmpty
  · rw [if_pos hc0]
    have hlen : 0 < inc.length := by
      cases hi : inc with
      | nil => exact absurd hi hne
      | cons a l => simp [hi]
    have hmem : inc.getD (r % inc.length) 0 ∈ inc :=
      getD_mem (Nat.mod_lt _ hlen)
    set j := inc.getD (r % inc.length) 0 with hj
    have hmm := (mem_getIncompleteFileIndices).1 hmem
    refine ⟨j, hmem, ?_, ?_⟩
    · exact switchToFile_spec hmm.1 hmm.2.1
    · rintro ⟨i, hi, hine⟩
      exfalso
      have : i ∈ c0 := by
        rw [hc0def]
        exact List.mem_filter.2 ⟨hi, by simp [hine]⟩
      rw [List.isEmpty_iff.1 hc0] at this
      exact absurd this (List.not_mem_nil i)
  · rw [if_neg hc0]
    have hlen : 0 < c0.length := by
      cases hi : c0 with
      | nil => rw [hi] at hc0; exact absurd rfl hc0
      | cons a l => simp [hi]
    have hmem : c0.getD (r % c0.length) 0 ∈ c0 :=
      getD_mem (Nat.mod_lt _ hlen)
    set j := c0.getD (r % c0.length) 0 with hj
    have hmemi : j ∈ inc := (List.mem_filter.1 hmem).1
    have hjne : j ≠ d.currentFileIndex := by
      have := (List.mem_filter.1 hmem).2
      simpa using this
    have hmm := (mem_getIncompleteFileIndices).1 hmemi
    exact ⟨j, hmemi, switchToFile_spec hmm.1 hmm.2.1, fun _ => hjne⟩

theorem getNextChar_fileBufferIndices {d : Director} :
    (d.getNextChar).2.fileBufferIndices = d.fileBufferIndices ∨
      (d.isMultiFile = true ∧
        d.fileBufferIndices.getD d.currentFileIndex 0 < d.script.length ∧
        (d.getNextChar).2.fileBufferIndices =
          (d.fileBufferIndices.set d.currentFileIndex (d.fileBufferIndices.getD d.currentFileIndex 0 + 1))) := by
  by_cases hm : d.isMultiFile
  · by_cases hcur : d.script.length ≤ d.fileBufferIndices.getD d.currentFileIndex 0
    · rw [getNextChar_complete hm hcur]
      exact Or.inl rfl
    · rw [getNextChar_incomplete hm (not_le.1 hcur)]
      exact Or.inr ⟨hm, not_le.1 hcur, rfl⟩
  · simp only [Bool.not_eq_true] at hm
    unfold getNextChar
    dsimp only
    rw [if_neg (by simp [hm])]
    split <;> exact Or.inl rfl

theorem WF_getNextChar {d : Director} (hwf : d.WF) : (d.getNextChar).2.WF := by
  obtain ⟨hlen, hmir, hbound⟩ := hwf
  have hframe := getNextChar_frame d
  obtain ⟨hfs, hcfi, hscr, hcp, _⟩ := hframe
  rcases getNextChar_fileBufferIndices (d := d) with hsame | ⟨hm, hlt, hset⟩
  · refine ⟨?_, ?_, ?_⟩
    · rw [hsame, hfs]; exact hlen
    · intro hm2
      rw [isMultiFile_eq hcp] at hm2
      rw [hfs, hcfi, hscr]
      exact hmir hm2
    · intro i hi
      rw [hfs] at hi
      rw [hsame, hfs]
      exact hbound i hi
  · obtain ⟨hci, hscript⟩ := hmir hm
    refine ⟨?_, ?_, ?_⟩
    · rw [hset, hfs]; simpa using hlen
    · intro hm2
      rw [isMultiFile_eq hcp] at hm2
      rw [hfs, hcfi, hscr]
      exact hmir hm2
    · intro i hi
      rw [hfs] at hi
      rw [hset, hfs]
      by_cases hieq : i = d.currentFileIndex
      · rw [hieq, getD_set_self (by omega)]
        have hsl : d.script.length = (d.fileScripts.getD d.currentFileIndex default).content.length := by
          rw [hscript]
        omega
      · rw [getD_set_ne hieq]
        exact hbound i hi

theorem getNextChar_cursors {d : Director} (hwf : d.WF) :
    ∀ i, (d.getNextChar).2.fileBufferIndices.getD i 0 = d.fileBufferIndices.getD i 0 ∨
      (i = d.currentFileIndex ∧
        d.fileBufferIndices.getD i 0 < (d.fileScripts.getD i default).content.length ∧
        (d.getNextChar).2.fileBufferIndices.getD i 0 = d.fileBufferIndices.getD i 0 + 1) := by
  obtain ⟨hlen, hmir, hbound⟩ := hwf
  intro i
  rcases getNextChar_fileBufferIndices (d := d) with hsame | ⟨hm, hlt, hset⟩
  · rw [hsame]; exact Or.inl rfl
  · obtain ⟨hci, hscript⟩ := hmir hm
    by_cases hieq : i = d.currentFileIndex
    · subst hieq
      refine Or.inr ⟨rfl, ?_, ?_⟩
      · rw [← hscript]; omega
      · rw [hset]; exact getD_set_self (by omega)
    · rw [hset, getD_set_ne hieq]
      exact Or.inl rfl

theorem totalRemaining_set_succ {d : Director} (hwf : d.WF) (hm : d.isMultiFile = true)
    (hlt : d.fileBufferIndices.getD d.currentFileIndex 0 <
      (d.fileScripts.getD d.currentFileIndex default).content.length) :
    totalRemaining { d with fileBufferIndices := (d.fileBufferIndices.set d.currentFileIndex (d.fileBufferIndices.getD d.currentFileIndex 0 + 1)) } + 1 =
      totalRemaining d := by
  obtain ⟨hlen, hmir, hbound⟩ := hwf
  obtain ⟨hci, hscript⟩ := hmir hm
  unfold totalRemaining
  dsimp only
  have hmemr : d.currentFileIndex ∈ Finset.range d.fileScripts.length :=
    Finset.mem_range.2 hci
  rw [← Finset.sum_erase_add _ _ hmemr, ← Finset.sum_erase_add _ _ hmemr]
  have hsame :
      (∑ i ∈ (Finset.range d.fileScripts.length).erase d.currentFileIndex,
        ((d.fileScripts.getD i default).content.length -
          (d.fileBufferIndices.set d.currentFileIndex
            (d.fileBufferIndices.getD d.currentFileIndex 0 + 1)).getD i 0)) =
      (∑ i ∈ (Finset.range d.fileScripts.length).erase d.currentFileIndex,
        ((d.fileScripts.getD i default).content.length - d.fileBufferIndices.getD i 0)) := by
    refine Finset.sum_congr rfl ?_
    intro j hj
    rw [getD_set_ne (Finset.ne_of_mem_erase hj)]
  rw [hsame, getD_set_self (by omega)]
  omega

theorem totalRemaining_eq_zero_of_allComplete {d : Director} (hm : d.isMultiFile = true)
    (hall : d.areAllFilesComplete = true) : d.totalRemaining = 0 := by
  have h := (areAllFilesComplete_iff hm).1 hall
  unfold totalRemaining
  refine Finset.sum_eq_zero ?_
  intro i hi
  have := h i (Finset.mem_range.1 hi)
  omega

theorem incomplete_ne_nil_of_not_allComplete {d : Director} (hm : d.isMultiFile = true)
    (hnall : d.areAllFilesComplete = false) : d.getIncompleteFileIndices ≠ [] := by
  have hnot : ¬ ∀ i, i < d.fileScripts.length →
      (d.fileScripts.getD i default).content.length ≤ d.fileBufferIndices.getD i 0 := by
    intro h
    rw [(areAllFilesComplete_iff hm).2 h] at hnall
    exact Bool.noConfusion hnall
  push_neg at hnot
  obtain ⟨i, hi, hlt⟩ := hnot
  exact List.ne_nil_of_mem (mem_getIncompleteFileIndices.2 ⟨hm, hi, hlt⟩)

end Director

theorem emittedFor_cons (i j : Nat) (c : Char) (tr : List (Nat × Char)) :
    emittedFor i ((j, c) :: tr) =
      if j = i then c :: emittedFor i tr else emittedFor i tr := by
  unfold emittedFor
  by_cases h : j = i <;> simp [List.filter_cons, h]

/-- Main induction for scene replay: from any well-formed multi-file state
with enough fuel, the driver finishes with `EXECUTE_SCENE`, emits exactly the
remaining characters, and reconstructs every file's remaining content; the
final state keeps answering `EXECUTE_SCENE`. -/
theorem runScene_spec (rnd : Nat → Nat) :
    ∀ fuel k (d : Director), d.WF → d.isMultiFile = true →
      2 * d.totalRemaining + (if d.isCurrentFileComplete then 2 else 1) ≤ fuel →
      (runScene rnd fuel k d).2.1 = true ∧
      (runScene rnd fuel k d).1.length = d.totalRemaining ∧
      (∀ i, i < d.fileScripts.length →
        emittedFor i (runScene rnd fuel k d).1 =
          (d.fileScripts.getD i default).content.drop (d.fileBufferIndices.getD i 0)) ∧
      (runScene rnd fuel k d).2.2.getNextChar = (.executeScene, (runScene rnd fuel k d).2.2) := by
  intro fuel
  induction fuel using Nat.strong_induction_on with
  | _ fuel IH =>
    intro k d hwf hm hfuel
    match fuel with
    | 0 =>
      exfalso
      by_cases hc : d.isCurrentFileComplete <;> simp [hc] at hfuel
    | F + 1 =>
      have hwfKeep := hwf
      obtain ⟨hlen, hmir, hbound⟩ := hwf
      obtain ⟨hci, hscript⟩ := hmir hm
      by_cases hcur : d.script.length ≤ d.fileBufferIndices.getD d.currentFileIndex 0
      · -- current file exhausted
        have hcc : d.isCurrentFileComplete = true := by
          unfold Director.isCurrentFileComplete
          rw [if_pos hm]
          exact decide_eq_true hcur
        by_cases hall : d.areAllFilesComplete
        · -- every file exhausted: EXECUTE_SCENE
          have hstep : d.getNextChar = (.executeScene, d) := by
            rw [Director.getNextChar_complete hm hcur, if_pos hall]
          have hrun : runScene rnd (F + 1) k d = ([], true, d) := by
            simp only [runScene, hstep]
          rw [hrun]
          have hzero := Director.totalRemaining_eq_zero_of_allComplete hm hall
          refine ⟨rfl, by simpa using hzero.symm, ?_, hstep⟩
          intro i hi
          have hle := (Director.areAllFilesComplete_iff hm).1 hall i hi
          rw [List.drop_eq_nil_of_le hle]
          rfl
        · -- siblings remain: NEXT_FILE, then advance
          have hnall : d.areAllFilesComplete = false := by
            simpa using hall
          have hstep : d.getNextChar = (.nextFile, d) := by
            rw [Director.getNextChar_complete hm hcur, if_neg (by simp [hnall])]
          have hne := Director.incomplete_ne_nil_of_not_allComplete hm hnall
          obtain ⟨j, hjmem, hswitch, _⟩ := Director.switchRandom_spec d (rnd k) hne
          obtain ⟨_, hjlt, hjcur⟩ := Director.mem_getIncompleteFileIndices.1 hjmem
          set d2 : Director :=
            { d with currentFileIndex := j,
                     script := (d.fileScripts.getD j default).content } with hd2
          have hrun : runScene rnd (F + 1) k d = runScene rnd F (k + 1) d2 := by
            simp only [runScene, hstep]
            unfold Director.advanceToNextFile
            rw [hswitch]
          have hwf2 : d2.WF := by
            refine ⟨hlen, ?_, hbound⟩
            intro _
            exact ⟨hjlt, rfl⟩
          have hm2 : d2.isMultiFile = true := hm
          have htr2 : d2.totalRemaining = d.totalRemaining := rfl
          have hcc2 : d2.isCurrentFileComplete = false := by
            unfold Director.isCurrentFileComplete
            rw [if_pos hm2]
            simpa using hjcur
          have hfuel2 : 2 * d2.totalRemaining + (if d2.isCurrentFileComplete then 2 else 1) ≤ F := by
            rw [htr2, hcc2]
            rw [hcc] at hfuel
            have e1 : (if (true = true) then 2 else 1) = 2 := by simp
            have e2 : (if (false = true) then 2 else 1) = 1 := by simp
            rw [e1] at hfuel
            rw [e2]
            omega
          have hres := IH F (by omega) (k + 1) d2 hwf2 hm2 hfuel2
          rw [hrun]
          refine ⟨hres.1, by rw [hres.2.1, htr2], ?_, hres.2.2.2⟩
          intro i hi
          exact hres.2.2.1 i hi
      · -- current file still has characters: emit one
        have hlt := not_le.1 hcur
        have hcc : d.isCurrentFileComplete = false := by
          unfold Director.isCurrentFileComplete
          rw [if_pos hm]
          simpa using hlt
        set ci := d.fileBufferIndices.getD d.currentFileIndex 0 with hcidef
        set c0 := d.script.getD ci default with hc0def
        set d1 : Director :=
          { d with fileBufferIndices := (d.fileBufferIndices.set d.currentFileIndex (ci + 1)) } with hd1
        have hstep : d.getNextChar = (.char c0, d1) :=
          Director.getNextChar_incomplete hm hlt
        have hrun : runScene rnd (F + 1) k d =
            ((d.currentFileIndex, c0) :: (runScene rnd F (k + 1) d1).1,
             (runScene rnd F (k + 1) d1).2) := by
          simp only [runScene, hstep]
        have hwf1 : d1.WF := by
          have h2 : (d.getNextChar).2 = d1 := congrArg Prod.snd hstep
          rw [← h2]
          exact Director.WF_getNextChar hwfKeep
        have hm1 : d1.isMultiFile = true := hm
        have hcontlt : ci < (d.fileScripts.getD d.currentFileIndex default).content.length := by
          rw [← hscript]
          exact hlt
        have htr1 : d1.totalRemaining + 1 = d.totalRemaining :=
          Director.totalRemaining_set_succ hwfKeep hm hcontlt
        have hfuel1 : 2 * d1.totalRemaining + (if d1.isCurrentFileComplete then 2 else 1) ≤ F := by
          rw [hcc] at hfuel
          have e2 : (if (false = true) then 2 else 1) = 1 := by simp
          rw [e2] at hfuel
          have hb : (if d1.isCurrentFileComplete then 2 else 1) ≤ 2 := by
            by_cases h1 : d1.isCurrentFileComplete <;> simp [h1]
          omega
        have hres := IH F (by omega) (k + 1) d1 hwf1 hm1 hfuel1
        rw [hrun]
        refine ⟨hres.1, ?_, ?_, hres.2.2.2⟩
        · simp only [List.length_cons, hres.2.1]
          omega
        · intro i hi
          rw [emittedFor_cons]
          by_cases hieq : d.currentFileIndex = i
          · rw [if_pos hieq]
            rw [hres.2.2.1 i (by simpa using hi)]
            have hfb1 : d1.fileBufferIndices.getD i 0 = ci + 1 := by
              rw [hd1]
              dsimp only
              rw [← hieq]
              exact getD_set_self (by omega)
            have hfs1 : d1.fileScripts = d.fileScripts := rfl
            rw [hfs1, hfb1]
            have hc0eq : (d.fileScripts.getD i default).content.getD ci default = c0 := by
              rw [hc0def, hscript, hieq]
            rw [← hieq]
            have hdrop : (d.fileScripts.getD d.currentFileIndex default).content.drop ci =
                c0 :: (d.fileScripts.getD d.currentFileIndex default).content.drop (ci + 1) := by
              rw [List.drop_eq_getElem_cons hcontlt]
              congr 1
              rw [← List.getD_eq_getElem _ default hcontlt, ← hscript]
            rw [hdrop, hieq]
          · rw [if_neg hieq]
            rw [hres.2.2.1 i (by simpa using hi)]
            have hfb1 : d1.fileBufferIndices.getD i 0 = d.fileBufferIndices.getD i 0 := by
              rw [hd1]
              dsimp only
              exact getD_set_ne (fun h => hieq h.symm)
            rw [hfb1]

theorem getD_map_const_zero {α : Type} (l : List α) (i : Nat) :
    (l.map (fun _ => 0)).getD i 0 = 0 := by
  rcases lt_or_ge i l.length with h | h
  · rw [List.getD_eq_getElem _ _ (by simpa using h)]
    simp
  · rw [List.getD_eq_default _ _ (by simpa using h)]

theorem sum_map_eq_range_sum {α : Type} [Inhabited α] (l : List α) (m : α → Nat) :
    (l.map m).sum = ∑ i ∈ Finset.range l.length, m (l.getD i default) := by
  induction l with
  | nil => simp
  | cons a l ih =>
    rw [List.map_cons, List.sum_cons, List.length_cons, Finset.sum_range_succ']
    simp only [List.getD_cons_succ, List.getD_cons_zero]
    rw [ih]
    omega

theorem getD_map_mk (files : List FileContent) (i : Nat) :
    (files.map (fun f => FileScript.mk f.filename f.content)).getD i default =
      FileScript.mk (files.getD i default).filename (files.getD i default).content := by
  have h : (default : FileScript) =
      FileScript.mk (default : FileContent).filename (default : FileContent).content := rfl
  rw [h]
  exact List.getD_map (l := files) (n := i)
    (f := fun f => FileScript.mk f.filename f.content) (d := default)

namespace Director

/-- Facts about a freshly started multi-file scene. -/
theorem startNewScene_multi (tid desc : String) (files : List FileContent)
    (entry : String) (hne : files ≠ []) (d : Director) :
    ((startNewScene (some (.multi tid desc files entry)) d).2.WF ∧
     (startNewScene (some (.multi tid desc files entry)) d).2.isMultiFile = true ∧
     (startNewScene (some (.multi tid desc files entry)) d).2.fileScripts =
       files.map (fun f => FileScript.mk f.filename f.content) ∧
     (∀ i, (startNewScene (some (.multi tid desc files entry)) d).2.fileBufferIndices.getD i 0 = 0) ∧
     (startNewScene (some (.multi tid desc files entry)) d).2.totalRemaining =
       (files.map (fun f => f.content.length)).sum) := by
  obtain ⟨f0, fs0, rfl⟩ := List.exists_cons_of_ne_nil hne
  unfold startNewScene
  dsimp only
  refine ⟨⟨?_, ?_, ?_⟩, rfl, rfl, ?_, ?_⟩
  · simp
  · intro _
    constructor
    · simp
    · rfl
  · intro i hi
    rw [getD_map_const_zero]
    exact Nat.zero_le _
  · intro i
    exact getD_map_const_zero _ _
  · unfold totalRemaining
    dsimp only
    rw [sum_map_eq_range_sum (f0 :: fs0) (fun f => f.content.length)]
    simp only [List.length_map]
    refine Finset.sum_congr rfl ?_
    intro i hi
    rw [getD_map_const_zero, getD_map_mk]
    simp

theorem switchToFile_fbi (d : Director) (j : Nat) :
    (d.switchToFile j).2.fileBufferIndices = d.fileBufferIndices ∧
      (d.switchToFile j).2.bufferIndex = d.bufferIndex := by
  unfold switchToFile
  split
  · exact ⟨rfl, rfl⟩
  · exact ⟨rfl, rfl⟩

theorem switchRandom_fbi (d : Director) (r : Nat) :
    (d.switchToRandomIncompleteFile r).2.fileBufferIndices = d.fileBufferIndices ∧
      (d.switchToRandomIncompleteFile r).2.bufferIndex = d.bufferIndex := by
  unfold switchToRandomIncompleteFile
  dsimp only
  split
  · exact ⟨rfl, rfl⟩
  · exact switchToFile_fbi _ _

theorem toggle_of_some {d : Director} (pr : Problem) (hp : d.currentProblem = some pr)
    (p? : Option Problem) :
    d.toggle p? = (!d.isActive, { d with isActive := !d.isActive }) := by
  unfold toggle
  dsimp only
  rw [if_neg]
  simp [hp]

end Director

/-- C1: for every multi-file Problem, driving the Director with `getNextChar`
(advancing on every `NEXT_FILE`, for any random draws) emits exactly
`sum(len(file.content))` characters, reconstructs every file's original
content file by file, and the call after exhaustion returns `EXECUTE_SCENE`
(and keeps doing so).  The two-file `a.py`/`b.py` scenario is the witness
instantiation. -/
theorem claim_C1_scene_replay (tid desc : String) (files : List FileContent)
    (entry : String) (rnd : Nat → Nat) (dprev : Director) (fuel : Nat)
    (hne : files ≠ [])
    (hfuel : 2 * (files.map (fun f => f.content.length)).sum + 2 ≤ fuel) :
    (runScene rnd fuel 0 (Director.startNewScene (some (.multi tid desc files entry)) dprev).2).1.length =
      (files.map (fun f => f.content.length)).sum ∧
    (runScene rnd fuel 0 (Director.startNewScene (some (.multi tid desc files entry)) dprev).2).2.1 = true ∧
    (∀ i, i < files.length →
      emittedFor i (runScene rnd fuel 0 (Director.startNewScene (some (.multi tid desc files entry)) dprev).2).1 =
        (files.getD i default).content) ∧
    (runScene rnd fuel 0 (Director.startNewScene (some (.multi tid desc files entry)) dprev).2).2.2.getNextChar =
      (.executeScene,
       (runScene rnd fuel 0 (Director.startNewScene (some (.multi tid desc files entry)) dprev).2).2.2) := by
  obtain ⟨hwf0, hm0, hfs0, hfb0, htr0⟩ :=
    Director.startNewScene_multi tid desc files entry hne dprev
  set d0 := (Director.startNewScene (some (.multi tid desc files entry)) dprev).2 with hd0
  have hfuel0 : 2 * d0.totalRemaining + (if d0.isCurrentFileComplete then 2 else 1) ≤ fuel := by
    have hb : (if d0.isCurrentFileComplete then 2 else 1) ≤ 2 := by
      by_cases h1 : d0.isCurrentFileComplete <;> simp [h1]
    rw [htr0]
    omega
  have hres := runScene_spec rnd fuel 0 d0 hwf0 hm0 hfuel0
  refine ⟨by rw [hres.2.1, htr0], hres.1, ?_, hres.2.2.2⟩
  intro i hi
  have hi' : i < d0.fileScripts.length := by
    rw [hfs0]
    simpa using hi
  have := hres.2.2.1 i hi'
  rw [this, hfb0 i, List.drop_zero, hfs0, getD_map_mk]

/-- C2: in a well-formed multi-file state whose current file is exhausted,
`getNextChar` returns `EXECUTE_SCENE` iff every file's cursor has reached its
content length and `NEXT_FILE` otherwise, and in both cases the state (all
cursors and the current-file index) is unchanged. -/
theorem claim_C2_boundary_signals (d : Director) (hwf : d.WF)
    (hm : d.isMultiFile = true)
    (hcur : (d.fileScripts.getD d.currentFileIndex default).content.length ≤
      d.fileBufferIndices.getD d.currentFileIndex 0) :
    ((d.getNextChar.1 = .executeScene ↔
        ∀ i, i < d.fileScripts.length →
          (d.fileScripts.getD i default).content.length ≤ d.fileBufferIndices.getD i 0) ∧
     (d.getNextChar.1 = .nextFile ↔
        ¬ ∀ i, i < d.fileScripts.length →
          (d.fileScripts.getD i default).content.length ≤ d.fileBufferIndices.getD i 0) ∧
     d.getNextChar.2 = d) := by
  obtain ⟨hlen, hmir, hbound⟩ := hwf
  obtain ⟨hci, hscript⟩ := hmir hm
  have hcur' : d.script.length ≤ d.fileBufferIndices.getD d.currentFileIndex 0 := by
    rw [hscript]
    exact hcur
  rw [Director.getNextChar_complete hm hcur']
  by_cases hall : d.areAllFilesComplete
  · rw [if_pos hall]
    have h := (Director.areAllFilesComplete_iff hm).1 hall
    exact ⟨⟨fun _ => h, fun _ => rfl⟩,
           ⟨fun hcon => EmitResult.noConfusion hcon, fun hcon => absurd h hcon⟩, rfl⟩
  · rw [if_neg hall]
    have h : ¬ ∀ i, i < d.fileScripts.length →
        (d.fileScripts.getD i default).content.length ≤ d.fileBufferIndices.getD i 0 := by
      intro hcon
      exact hall ((Director.areAllFilesComplete_iff hm).2 hcon)
    exact ⟨⟨fun hcon => EmitResult.noConfusion hcon, fun hcon => absurd hcon h⟩,
           ⟨fun _ => h, fun _ => rfl⟩, rfl⟩

/-- C3: per-file cursors are bounded by their file's length and only
`getNextChar` moves them — incrementing exactly the current file's cursor by
one, and only while it is below the file's length; `toggle` (with a problem
loaded), `switchToFile`, `switchToRandomIncompleteFile` and
`advanceToNextFile` leave every cursor unchanged, so toggling playback off
and back on resumes at the exact prior cursor. -/
theorem claim_C3_cursor_monotonicity (d : Director) (hwf : d.WF) :
    ((∀ i, i < d.fileScripts.length →
        d.fileBufferIndices.getD i 0 ≤ (d.fileScripts.getD i default).content.length) ∧
     (d.getNextChar).2.WF ∧
     (∀ i, (d.getNextChar).2.fileBufferIndices.getD i 0 = d.fileBufferIndices.getD i 0 ∨
        (i = d.currentFileIndex ∧
          d.fileBufferIndices.getD i 0 < (d.fileScripts.getD i default).content.length ∧
          (d.getNextChar).2.fileBufferIndices.getD i 0 = d.fileBufferIndices.getD i 0 + 1)) ∧
     (∀ pr p?, d.currentProblem = some pr →
        (d.toggle p?).2.fileBufferIndices = d.fileBufferIndices) ∧
     (∀ j, (d.switchToFile j).2.fileBufferIndices = d.fileBufferIndices) ∧
     (∀ r, (d.switchToRandomIncompleteFile r).2.fileBufferIndices = d.fileBufferIndices) ∧
     (∀ r, (d.advanceToNextFile r).2.fileBufferIndices = d.fileBufferIndices) ∧
     (∀ pr p1 p2, d.currentProblem = some pr → d.isActive = true →
        ((d.toggle p1).2.toggle p2).2.fileBufferIndices = d.fileBufferIndices ∧
        ((d.toggle p1).2.toggle p2).2.bufferIndex = d.bufferIndex ∧
        ((d.toggle p1).2.toggle p2).2.script = d.script ∧
        ((d.toggle p1).2.toggle p2).2.currentFileIndex = d.currentFileIndex ∧
        ((d.toggle p1).2.toggle p2).2.isActive = true)) := by
  refine ⟨hwf.2.2, Director.WF_getNextChar hwf, Director.getNextChar_cursors hwf,
          ?_, ?_, ?_, ?_, ?_⟩
  · intro pr p? hp
    rw [Director.toggle_of_some pr hp]
  · intro j
    exact (Director.switchToFile_fbi d j).1
  · intro r
    exact (Director.switchRandom_fbi d r).1
  · intro r
    exact (Director.switchRandom_fbi d r).1
  · intro pr p1 p2 hp hact
    have h1 := Director.toggle_of_some pr hp p1
    have h2 : (d.toggle p1).2.currentProblem = some pr := by
      rw [h1]
      exact hp
    have h3 := Director.toggle_of_some pr h2 p2
    rw [h3, h1]
    refine ⟨rfl, rfl, rfl, rfl, ?_⟩
    dsimp only
    rw [hact]
    rfl

/-- C4: whenever some file's cursor is below its content length,
`switchToRandomIncompleteFile` returns a file (never `undefined`) whose
cursor is below its length, chosen among the incomplete files and different
from the current file when another incomplete file exists; if exactly one
file is incomplete it is always the one returned. -/
theorem claim_C4_random_switch (d : Director) (r : Nat)
    (hm : d.isMultiFile = true)
    (hex : ∃ i, i < d.fileScripts.length ∧
      d.fileBufferIndices.getD i 0 < (d.fileScripts.getD i default).content.length) :
    ∃ j, j ∈ d.getIncompleteFileIndices ∧
      (d.switchToRandomIncompleteFile r).1 = some (d.fileScripts.getD j default) ∧
      (d.switchToRandomIncompleteFile r).2.currentFileIndex = j ∧
      d.fileBufferIndices.getD j 0 < (d.fileScripts.getD j default).content.length ∧
      ((∃ i ∈ d.getIncompleteFileIndices, i ≠ d.currentFileIndex) → j ≠ d.currentFileIndex) ∧
      (∀ j0, d.getIncompleteFileIndices = [j0] → j = j0) := by
  obtain ⟨i0, hi0, hlt0⟩ := hex
  have hne : d.getIncompleteFileIndices ≠ [] :=
    List.ne_nil_of_mem (Director.mem_getIncompleteFileIndices.2 ⟨hm, hi0, hlt0⟩)
  obtain ⟨j, hjmem, hswitch, hexcl⟩ := Director.switchRandom_spec d r hne
  obtain ⟨_, hjlt, hjcur⟩ := Director.mem_getIncompleteFileIndices.1 hjmem
  refine ⟨j, hjmem, ?_, ?_, hjcur, hexcl, ?_⟩
  · rw [hswitch]
  · rw [hswitch]
  · intro j0 hsing
    rw [hsing] at hjmem
    simpa using hjmem

/-- C10: with an empty problem catalog (`getRandomProblem` returns
`undefined`, `startNewScene` returns `false`), `toggle()` still flips
`isActive` to `true` and returns `true`, the script stays empty, and every
subsequent `getNextChar` immediately returns `EXECUTE_SCENE` without
changing the state. -/
theorem claim_C1_scene_replay_witness :
    (([aPy, bPy] : List FileContent) ≠ [] ∧
      2 * (([aPy, bPy] : List FileContent).map (fun f => f.content.length)).sum + 2 ≤ 40) ∧
    ((runScene (fun _ => 0) 40 0
        (Director.startNewScene (some (.multi "demo/two-files" "" [aPy, bPy] "b.py")) initialDirector).2).1.length =
      (([aPy, bPy] : List FileContent).map (fun f => f.content.length)).sum ∧
     (runScene (fun _ => 0) 40 0
        (Director.startNewScene (some (.multi "demo/two-files" "" [aPy, bPy] "b.py")) initialDirector).2).2.1 = true ∧
     (∀ i, i < ([aPy, bPy] : List FileContent).length →
       emittedFor i (runScene (fun _ => 0) 40 0
         (Director.startNewScene (some (.multi "demo/two-files" "" [aPy, bPy] "b.py")) initialDirector).2).1 =
         (([aPy, bPy] : List FileContent).getD i default).content) ∧
     (runScene (fun _ => 0) 40 0
        (Director.startNewScene (some (.multi "demo/two-files" "" [aPy, bPy] "b.py")) initialDirector).2).2.2.getNextChar =
       (.executeScene,
        (runScene (fun _ => 0) 40 0
          (Director.startNewScene (some (.multi "demo/two-files" "" [aPy, bPy] "b.py")) initialDirector).2).2.2)) :=
  ⟨⟨by decide, by decide⟩,
   claim_C1_scene_replay "demo/two-files" "" [aPy, bPy] "b.py" (fun _ => 0) initialDirector 40
     (by decide) (by decide)⟩

theorem claim_C2_boundary_signals_witness :
    (demoMid.WF ∧ demoMid.isMultiFile = true ∧
      (demoMid.fileScripts.getD demoMid.currentFileIndex default).content.length ≤
        demoMid.fileBufferIndices.getD demoMid.currentFileIndex 0) ∧
    ((demoMid.getNextChar.1 = .executeScene ↔
        ∀ i, i < demoMid.fileScripts.length →
          (demoMid.fileScripts.getD i default).content.length ≤
            demoMid.fileBufferIndices.getD i 0) ∧
     (demoMid.getNextChar.1 = .nextFile ↔
        ¬ ∀ i, i < demoMid.fileScripts.length →
          (demoMid.fileScripts.getD i default).content.length ≤
            demoMid.fileBufferIndices.getD i 0) ∧
     demoMid.getNextChar.2 = demoMid) :=
  ⟨⟨by decide, by decide, by decide⟩,
   claim_C2_boundary_signals demoMid (by decide) (by decide) (by decide)⟩

theorem claim_C3_cursor_monotonicity_witness :
    demoMid.WF ∧
    ((∀ i, i < demoMid.fileScripts.length →
        demoMid.fileBufferIndices.getD i 0 ≤
          (demoMid.fileScripts.getD i default).content.length) ∧
     (demoMid.getNextChar).2.WF ∧
     (∀ i, (demoMid.getNextChar).2.fileBufferIndices.getD i 0 =
          demoMid.fileBufferIndices.getD i 0 ∨
        (i = demoMid.currentFileIndex ∧
          demoMid.fileBufferIndices.getD i 0 <
            (demoMid.fileScripts.getD i default).content.length ∧
          (demoMid.getNextChar).2.fileBufferIndices.getD i 0 =
            demoMid.fileBufferIndices.getD i 0 + 1)) ∧
     (∀ pr p?, demoMid.currentProblem = some pr →
        (demoMid.toggle p?).2.fileBufferIndices = demoMid.fileBufferIndices) ∧
     (∀ j, (demoMid.switchToFile j).2.fileBufferIndices = demoMid.fileBufferIndices) ∧
     (∀ r, (demoMid.switchToRandomIncompleteFile r).2.fileBufferIndices =
        demoMid.fileBufferIndices) ∧
     (∀ r, (demoMid.advanceToNextFile r).2.fileBufferIndices = demoMid.fileBufferIndices) ∧
     (∀ pr p1 p2, demoMid.currentProblem = some pr → demoMid.isActive = true →
        ((demoMid.toggle p1).2.toggle p2).2.fileBufferIndices = demoMid.fileBufferIndices ∧
        ((demoMid.toggle p1).2.toggle p2).2.bufferIndex = demoMid.bufferIndex ∧
        ((demoMid.toggle p1).2.toggle p2).2.script = demoMid.script ∧
        ((demoMid.toggle p1).2.toggle p2).2.currentFileIndex = demoMid.currentFileIndex ∧
        ((demoMid.toggle p1).2.toggle p2).2.isActive = true)) :=
  ⟨by decide, claim_C3_cursor_monotonicity demoMid (by decide)⟩

theorem claim_C4_random_switch_witness :
    (demoMid.isMultiFile = true ∧
      (1 < demoMid.fileScripts.length ∧
        demoMid.fileBufferIndices.getD 1 0 <
          (demoMid.fileScripts.getD 1 default).content.length)) ∧
    (∃ j, j ∈ demoMid.getIncompleteFileIndices ∧
      (demoMid.switchToRandomIncompleteFile 0).1 = some (demoMid.fileScripts.getD j default) ∧
      (demoMid.switchToRandomIncompleteFile 0).2.currentFileIndex = j ∧
      demoMid.fileBufferIndices.getD j 0 < (demoMid.fileScripts.getD j default).content.length ∧
      ((∃ i ∈ demoMid.getIncompleteFileIndices, i ≠ demoMid.currentFileIndex) →
        j ≠ demoMid.currentFileIndex) ∧
      (∀ j0, demoMid.getIncompleteFileIndices = [j0] → j = j0)) :=
  ⟨⟨by decide, by decide⟩,
   claim_C4_random_switch demoMid 0 (by decide) ⟨1, by decide⟩⟩

theorem claim_C10_empty_catalog_toggle :
    (Director.toggle none initialDirector).1 = true ∧
    (Director.toggle none initialDirector).2.isActive = true ∧
    (Director.toggle none initialDirector).2.currentProblem = none ∧
    (Director.toggle none initialDirector).2.script = [] ∧
    (Director.startNewScene none ((Director.toggle none initialDirector).2)).1 = false ∧
    (Director.toggle none initialDirector).2.getNextChar =
      (.executeScene, (Director.toggle none initialDirector).2) := by
  refine ⟨rfl, rfl, rfl, rfl, rfl, ?_⟩
  rfl

/-- C5: a distraction-triggered random file switch only takes effect at a
line boundary: whenever the auto-type tick applies the pending switch, the
director it hands to `handleRandomFileSwitch` is at a cursor `c ≠ 0` whose
previous character `script[c-1]` is the just-emitted newline (so
`isAtLineEnd` holds); a switch request merely latches `pendingFileSwitch`
without touching the director, and a latched request is honored on the next
newline emission. -/
theorem claim_C5_line_boundary_switch :
    (∀ (s : TypingState) (r : Nat) (dApp : Director), s.d.WF →
      (autoTick r s).2 = some dApp →
        dApp.isAtLineEnd = true ∧ dApp.isMultiFile = true ∧
        dApp.fileBufferIndices.getD dApp.currentFileIndex 0 ≠ 0 ∧
        dApp.script.getD (dApp.fileBufferIndices.getD dApp.currentFileIndex 0 - 1) default = '\n') ∧
    (∀ s : TypingState, (guiSwitchFileAction s).d = s.d ∧
      (s.d.isMultiFile = true → s.d.isCurrentFileComplete = false →
        (guiSwitchFileAction s).pendingFileSwitch = true)) ∧
    (∀ (s : TypingState) (r : Nat) (d1 : Director),
      s.pendingFileSwitch = true → s.d.getNextChar = (.char '\n', d1) →
      d1.isMultiFile = true → ((autoTick r s).2).isSome) := by
  refine ⟨?_, ?_, ?_⟩
  · intro s r dApp hwf hsw
    obtain ⟨hlen, hmir, hbound⟩ := hwf
    unfold autoTick at hsw
    rcases hgc : s.d.getNextChar with ⟨res, d1⟩
    rw [hgc] at hsw
    cases res with
    | nextFile => exact Option.noConfusion hsw
    | executeScene => exact Option.noConfusion hsw
    | char c =>
      dsimp only at hsw
      by_cases hcond : (c == '\n' && s.pendingFileSwitch && d1.isMultiFile) = true
      · rw [if_pos hcond] at hsw
        have hdApp : d1 = dApp := Option.some.inj hsw
        subst hdApp
        have hm1 : d1.isMultiFile = true := by
          simp only [Bool.and_eq_true] at hcond
          exact hcond.2
        have hm : s.d.isMultiFile = true := by
          have := (Director.getNextChar_frame s.d).2.2.2.1
          rw [hgc] at this
          rw [← Director.isMultiFile_eq this]
          exact hm1
        have hcnl : c = '\n' := by
          simp only [Bool.and_eq_true, beq_iff_eq] at hcond
          exact hcond.1.1
        by_cases hcur : s.d.script.length ≤ s.d.fileBufferIndices.getD s.d.currentFileIndex 0
        · exfalso
          rw [Director.getNextChar_complete hm hcur] at hgc
          have := congrArg Prod.fst hgc
          dsimp only at this
          by_cases hall : s.d.areAllFilesComplete
          · rw [if_pos hall] at this
            exact EmitResult.noConfusion this
          · rw [if_neg hall] at this
            exact EmitResult.noConfusion this
        · have hlt := not_le.1 hcur
          rw [Director.getNextChar_incomplete hm hlt] at hgc
          obtain ⟨hci, hscript⟩ := hmir hm
          have hc0 : c = s.d.script.getD (s.d.fileBufferIndices.getD s.d.currentFileIndex 0) default := by
            have := congrArg Prod.fst hgc
            dsimp only at this
            exact (EmitResult.char.inj this).symm
          have hd1 : d1 = { s.d with fileBufferIndices :=
              (s.d.fileBufferIndices.set s.d.currentFileIndex
                (s.d.fileBufferIndices.getD s.d.currentFileIndex 0 + 1)) } := by
            have := congrArg Prod.snd hgc
            dsimp only at this
            exact this.symm
          subst hd1
          have hcurset : (s.d.fileBufferIndices.set s.d.currentFileIndex
              (s.d.fileBufferIndices.getD s.d.currentFileIndex 0 + 1)).getD s.d.currentFileIndex 0 =
              s.d.fileBufferIndices.getD s.d.currentFileIndex 0 + 1 :=
            getD_set_self (by omega)
          refine ⟨?_, hm1, ?_, ?_⟩
          · unfold Director.isAtLineEnd
            dsimp only
            rw [if_pos hm1]
            rw [hcurset]
            rw [if_neg (by omega)]
            rw [Nat.add_sub_cancel]
            rw [← hc0, hcnl]
            exact decide_eq_true rfl
          · dsimp only
            rw [hcurset]
            omega
          · dsimp only
            rw [hcurset, Nat.add_sub_cancel, ← hc0, hcnl]
      · rw [if_neg hcond] at hsw
        exact Option.noConfusion hsw
  · intro s
    unfold guiSwitchFileAction
    constructor
    · split
      · rfl
      · rfl
    · intro hm hcc
      rw [if_pos (by rw [hm, hcc]; rfl)]
  · intro s r d1 hpend hgc hm1
    unfold autoTick
    rw [hgc]
    dsimp only
    rw [if_pos (by rw [hpend, hm1]; rfl)]
    rfl

theorem claim_C5_line_boundary_switch_witness :
    (demoNL.d.WF ∧ (autoTick 0 demoNL).2 = some demoMid) ∧
    (demoMid.isAtLineEnd = true ∧ demoMid.isMultiFile = true ∧
      demoMid.fileBufferIndices.getD demoMid.currentFileIndex 0 ≠ 0 ∧
      demoMid.script.getD (demoMid.fileBufferIndices.getD demoMid.currentFileIndex 0 - 1) default = '\n') :=
  ⟨⟨by decide, by decide⟩,
   claim_C5_line_boundary_switch.1 demoNL 0 demoMid (by decide) (by decide)⟩

/-- C6: in every reachable arbiter state at most one queued trigger is in
flight (and none while `isProcessingKeystroke` is down), the arrival sequence
is exactly the processed triggers followed by the in-flight one and the
queue — so processing is FIFO in arrival order and no queued trigger is
silently dropped — and an auto-type tick with a GUI action or scene
execution in flight changes nothing. -/
theorem claim_C6_single_writer :
    (∀ s : ArbState, ArbReachable s →
      s.running.length ≤ 1 ∧
      (s.isProcessingKeystroke = false → s.running = []) ∧
      s.arrivals = s.processed ++ s.running ++ s.keystrokeQueue) ∧
    (∀ s : ArbState, s.isPerformingGuiAction = true ∨ s.isExecutingScene = true →
      autoTypeTick s = s) := by
  constructor
  · intro s hreach
    induction hreach with
    | init => exact ⟨by simp [arbInit], fun _ => rfl, by simp [arbInit]⟩
    | step hr hstep ih =>
      obtain ⟨ih1, ih2, ih3⟩ := ih
      cases hstep with
      | keystroke =>
        refine ⟨ih1, ih2, ?_⟩
        dsimp only
        rw [ih3]
        simp [List.append_assoc]
      | procStart t rest hgui hflag hq =>
        have hrun : _ = ([] : List Nat) := ih2 hflag
        refine ⟨?_, ?_, ?_⟩
        · dsimp only
          rw [hrun]
          simp
        · intro hcon
          exact Bool.noConfusion hcon
        · dsimp only
          rw [ih3, hrun, hq]
          simp
      | procFinish t hrunt =>
        refine ⟨by simp, fun _ => rfl, ?_⟩
        dsimp only
        rw [ih3, hrunt]
        simp
      | procFinishRequeue t hrunt =>
        refine ⟨by simp, fun _ => rfl, ?_⟩
        dsimp only
        rw [ih3, hrunt]
        simp
      | guiStart hgui => exact ⟨ih1, ih2, ih3⟩
      | guiEnd => exact ⟨ih1, ih2, ih3⟩
      | sceneStart => exact ⟨ih1, ih2, ih3⟩
      | sceneEnd => exact ⟨ih1, ih2, ih3⟩
      | genStart => exact ⟨ih1, ih2, ih3⟩
      | genEnd => exact ⟨ih1, ih2, ih3⟩
      | startAuto => exact ⟨ih1, ih2, ih3⟩
      | stopAuto => exact ⟨ih1, ih2, ih3⟩
      | toggleOff => exact ⟨ih1, ih2, ih3⟩
      | toggleOn => exact ⟨ih1, ih2, ih3⟩
      | tick htimer =>
        unfold autoTypeTick
        split
        · exact ⟨ih1, ih2, ih3⟩
        · split
          · exact ⟨ih1, ih2, ih3⟩
          · exact ⟨ih1, ih2, ih3⟩
  · intro s h
    unfold autoTypeTick
    rcases h with h | h <;> rw [if_pos (by simp [h])]

theorem claim_C6_single_writer_witness :
    ((arbDemoMid.running.length ≤ 1 ∧
      (arbDemoMid.isProcessingKeystroke = false → arbDemoMid.running = []) ∧
      arbDemoMid.arrivals = arbDemoMid.processed ++ arbDemoMid.running ++ arbDemoMid.keystrokeQueue) ∧
     (arbDemoGui.isPerformingGuiAction = true ∧ autoTypeTick arbDemoGui = arbDemoGui)) :=
  ⟨claim_C6_single_writer.1 arbDemoMid
    (ArbReachable.step
      (ArbReachable.step ArbReachable.init ArbStep.keystroke)
      (ArbStep.procStart 0 [] rfl rfl rfl)),
   rfl,
   claim_C6_single_writer.2 arbDemoGui (Or.inl rfl)⟩

/-- C7 counterexample: toggling playback off via the `performative.toggle`
deactivation branch does *not* clear the pending keystroke queue and does
*not* cancel the auto-play timer: on a state with two queued triggers and a
running timer, both survive the branch. -/
theorem claim_C7_counterexample_toggle_off :
    ¬ ((toggleOffDeactivation arbDemoActive).keystrokeQueue = [] ∧
       (toggleOffDeactivation arbDemoActive).autoTypeInterval = false) := by
  decide

/-- C7 amended: the `performative.toggle` deactivation branch leaves the
pending trigger queue and the auto-play timer untouched (it only deactivates
the director and unregisters the type command); the queue is cleared
outright and the timer cancelled only by the extension's `deactivate()`
hook, and the auto-play timer cancels itself on its next tick once it
observes the director inactive. -/
theorem claim_C7_amended_cancellation :
    ∀ s : ArbState,
      ((toggleOffDeactivation s).keystrokeQueue = s.keystrokeQueue ∧
       (toggleOffDeactivation s).autoTypeInterval = s.autoTypeInterval ∧
       (toggleOffDeactivation s).directorActive = false) ∧
      ((deactivateExtension s).keystrokeQueue = [] ∧
       (deactivateExtension s).autoTypeInterval = false) ∧
      (s.isPerformingGuiAction = false → s.isExecutingScene = false →
        s.isGeneratingExtension = false →
        (autoTypeTick (toggleOffDeactivation s)).autoTypeInterval = false ∧
        (autoTypeTick (toggleOffDeactivation s)).docRevision = s.docRevision) := by
  intro s
  refine ⟨⟨rfl, rfl, rfl⟩, ⟨rfl, rfl⟩, ?_⟩
  intro h1 h2 h3
  unfold autoTypeTick toggleOffDeactivation
  dsimp only
  rw [h1, h2, h3]
  exact ⟨rfl, rfl⟩

theorem claim_C7_amended_cancellation_witness :
    (arbDemoActive.isPerformingGuiAction = false ∧
     arbDemoActive.isExecutingScene = false ∧
     arbDemoActive.isGeneratingExtension = false) ∧
    ((toggleOffDeactivation arbDemoActive).keystrokeQueue = arbDemoActive.keystrokeQueue ∧
     (toggleOffDeactivation arbDemoActive).autoTypeInterval = arbDemoActive.autoTypeInterval ∧
     (deactivateExtension arbDemoActive).keystrokeQueue = [] ∧
     (deactivateExtension arbDemoActive).autoTypeInterval = false ∧
     (autoTypeTick (toggleOffDeactivation arbDemoActive)).autoTypeInterval = false) :=
  ⟨⟨rfl, rfl, rfl⟩,
   (claim_C7_amended_cancellation arbDemoActive).1.1,
   (claim_C7_amended_cancellation arbDemoActive).1.2.1,
   (claim_C7_amended_cancellation arbDemoActive).2.1.1,
   (claim_C7_amended_cancellation arbDemoActive).2.1.2,
   ((claim_C7_amended_cancellation arbDemoActive).2.2 rfl rfl rfl).1⟩

/-- C8: the catalog loader accepts a whole-file JSON array, and in
line-delimited mode it keeps exactly the parseable non-blank lines: a file
with one malformed line among `N` valid lines yields exactly `N` problems.
`loadProblems` is total, so the load never throws. -/
theorem claim_C8_jsonl_tolerant_load :
    (∀ (parseDoc : List Char → Option JsonDoc) (parseLine : List Char → Option RawProblem)
       (content : List Char) (records : List RawProblem),
       parseDoc content = some (.arr records) →
       loadProblems parseDoc parseLine content = records.map normalizeProblem) ∧
    (∀ (parseDoc : List Char → Option JsonDoc) (parseLine : List Char → Option RawProblem)
       (content : List Char) (N : Nat),
       (parseDoc content = none ∨ parseDoc content = some .nonArray) →
       ((splitOnNewline content).filter (fun line => !(jsTrim line == []))).countP
         (fun line => (parseLine line).isSome) = N →
       ((splitOnNewline content).filter (fun line => !(jsTrim line == []))).countP
         (fun line => (parseLine line).isNone) = 1 →
       (loadProblems parseDoc parseLine content).length = N) := by
  constructor
  · intro pd pl content records h
    unfold loadProblems
    rw [h]
  · intro pd pl content N h hsome hone
    have hcong : ∀ lines : List (List Char),
        (lines.filterMap (fun line => (pl line).map normalizeProblem)).length =
          lines.countP (fun line => (pl line).isSome) := by
      intro lines
      rw [length_filterMap_isSome]
      refine List.countP_congr ?_
      intro line _
      cases pl line <;> rfl
    unfold loadProblems
    rcases h with h | h
    · rw [h]
      dsimp only
      rw [hcong, hsome]
    · rw [h]
      dsimp only
      rw [hcong, hsome]

theorem claim_C8_jsonl_tolerant_load_witness :
    ((demoParseDoc demoDataset = none ∨ demoParseDoc demoDataset = some .nonArray) ∧
     ((splitOnNewline demoDataset).filter (fun line => !(jsTrim line == []))).countP
       (fun line => (demoParseLine line).isSome) = 2 ∧
     ((splitOnNewline demoDataset).filter (fun line => !(jsTrim line == []))).countP
       (fun line => (demoParseLine line).isNone) = 1) ∧
    (loadProblems demoParseDoc demoParseLine demoDataset).length = 2 :=
  ⟨⟨Or.inl rfl, by decide, by decide⟩,
   claim_C8_jsonl_tolerant_load.2 demoParseDoc demoParseLine demoDataset 2
     (Or.inl rfl) (by decide) (by decide)⟩

/-! ### String lemmas for the generator-response parser -/

theorem dropWhile_head_not (p : Char → Bool) (l : List Char) :
    ∀ c, (l.dropWhile p).head? = some c → p c = false := by
  induction l with
  | nil => intro c h; exact Option.noConfusion h
  | cons a l ih =>
    intro c h
    rw [List.dropWhile_cons] at h
    by_cases hp : p a
    · rw [if_pos hp] at h
      exact ih c h
    · rw [if_neg hp] at h
      cases Option.some.inj h
      simpa using hp

theorem dropWhile_cons_of_neg (p : Char → Bool) (a : Char) (l : List Char)
    (h : p a = false) : (a :: l).dropWhile p = a :: l := by
  rw [List.dropWhile_cons, if_neg (by simp [h])]

theorem dropWhile_eq_self_of_head? (p : Char → Bool) (l : List Char)
    (h : ∀ c, l.head? = some c → p c = false) : l.dropWhile p = l := by
  cases l with
  | nil => rfl
  | cons a t => exact dropWhile_cons_of_neg p a t (h a rfl)

theorem dropWhile_append_of_ne_nil (p : Char → Bool) (xs ys : List Char)
    (h : xs.dropWhile p ≠ []) :
    (xs ++ ys).dropWhile p = xs.dropWhile p ++ ys := by
  induction xs with
  | nil => exact absurd rfl h
  | cons a xs ih =>
    by_cases hp : p a
    · rw [List.dropWhile_cons, if_pos hp] at h
      rw [List.cons_append, List.dropWhile_cons, if_pos hp,
          List.dropWhile_cons, if_pos hp]
      exact ih h
    · rw [List.cons_append, List.dropWhile_cons, if_neg hp,
          List.dropWhile_cons, if_neg hp]
      rfl

theorem containsFence_suffix (xs ys : List Char)
    (h : containsFence (xs ++ ys) = false) : containsFence ys = false := by
  induction xs with
  | nil => exact h
  | cons a xs ih =>
    rw [List.cons_append] at h
    unfold containsFence at h
    exact ih (Bool.or_eq_false_iff.1 h).2

theorem containsFence_dropWhile (p : Char → Bool) (l : List Char)
    (h : containsFence l = false) : containsFence (l.dropWhile p) = false := by
  refine containsFence_suffix (l.takeWhile p) (l.dropWhile p) ?_
  rwa [List.takeWhile_append_dropWhile]

theorem fenceHere_iff (x y z : Char) (l : List Char) :
    fenceHere (x :: y :: z :: l) = true ↔ (x = '`' ∧ y = '`' ∧ z = '`') := by
  unfold fenceHere
  constructor
  · intro h
    have he : ([x, y, z] : List Char) = ['`', '`', '`'] := by
      have h3 : (x :: y :: z :: l).take 3 = [x, y, z] := rfl
      rw [h3] at h
      exact eq_of_beq h
    injection he with h1 h2
    injection h2 with h3 h4
    injection h4 with h5 _
    exact ⟨h1, h3, h5⟩
  · rintro ⟨rfl, rfl, rfl⟩
    rfl

theorem fenceHere_false_of (x y z : Char) (l : List Char)
    (h : ¬ (x = '`' ∧ y = '`' ∧ z = '`')) : fenceHere (x :: y :: z :: l) = false := by
  rw [← Bool.not_eq_true, fenceHere_iff]
  exact h

theorem fenceClose_sentinel : ∀ xs : List Char, containsFence xs = false →
    fenceClose (xs ++ ('\n' :: '`' :: '`' :: '`' :: [])) = some (xs ++ ['\n']) := by
  intro xs
  induction xs with
  | nil => intro _; rfl
  | cons a xs ih =>
    intro h
    unfold containsFence at h
    obtain ⟨hf, hc⟩ := Bool.or_eq_false_iff.1 h
    have hnf2 : fenceHere (a :: (xs ++ ('\n' :: '`' :: '`' :: '`' :: []))) = false := by
      match xs with
      | [] =>
        refine fenceHere_false_of a '\n' '`' _ ?_
        rintro ⟨-, h2, -⟩
        exact absurd h2 (by decide)
      | [b] =>
        refine fenceHere_false_of a b '\n' _ ?_
        rintro ⟨-, -, h3⟩
        exact absurd h3 (by decide)
      | b :: c :: rest =>
        refine fenceHere_false_of a b c _ ?_
        intro hcon
        have : fenceHere (a :: b :: c :: rest) = true := by
          rw [fenceHere_iff]
          exact hcon
        rw [this] at hf
        exact Bool.noConfusion hf
    rw [List.cons_append]
    unfold fenceClose
    rw [hnf2]
    simp only [Bool.false_eq_true, if_false]
    rw [ih hc]
    rfl

theorem wrapFenced_eq (j : List Char) :
    wrapFenced j =
      '`':: '`':: '`':: 'j':: 's':: 'o':: 'n':: '\n'::(j ++ ('\n':: '`':: '`':: '`'::[])) := by
  unfold wrapFenced
  rw [show ("```json\n").data = ['`','`','`','j','s','o','n','\n'] from rfl,
      show ("\n```").data = ['\n','`','`','`'] from rfl]
  simp

theorem fenceExtract_wrap (j : List Char) (hnf : containsFence j = false)
    (hne : j.dropWhile isWsChar ≠ []) :
    fenceExtract (wrapFenced j) = some (j.dropWhile isWsChar ++ ['\n']) := by
  rw [wrapFenced_eq]
  have hgroup : fenceGroupAfterOpen
      ((('`':: '`':: 'j':: 's':: 'o':: 'n':: '\n'::(j ++ ('\n':: '`':: '`':: '`'::[]))) : List Char).drop 2) =
      some (j.dropWhile isWsChar ++ ['\n']) := by
    have h1 : fenceGroupAfterOpen
        ((('`':: '`':: 'j':: 's':: 'o':: 'n':: '\n'::(j ++ ('\n':: '`':: '`':: '`'::[]))) : List Char).drop 2) =
        fenceClose (List.dropWhile isWsChar ('\n' :: (j ++ ('\n':: '`':: '`':: '`'::[])))) := rfl
    rw [h1, List.dropWhile_cons, if_pos (by decide)]
    rw [dropWhile_append_of_ne_nil isWsChar j _ hne]
    exact fenceClose_sentinel (j.dropWhile isWsChar) (containsFence_dropWhile isWsChar j hnf)
  unfold fenceExtract
  rw [if_pos (show fenceHere ('`':: '`':: '`':: 'j':: 's':: 'o':: 'n':: '\n'::(j ++ ('\n':: '`':: '`':: '`'::[]))) = true from rfl)]
  rw [hgroup]

theorem jsTrim_dropWhile_newline (j : List Char) (hne : j.dropWhile isWsChar ≠ []) :
    jsTrim (j.dropWhile isWsChar ++ ['\n']) = jsTrim j := by
  obtain ⟨h0, t, ht⟩ : ∃ h0 t, j.dropWhile isWsChar = h0 :: t := by
    cases hd : j.dropWhile isWsChar with
    | nil => exact absurd hd hne
    | cons a t => exact ⟨a, t, rfl⟩
  have hh : isWsChar h0 = false := dropWhile_head_not _ j h0 (by rw [ht]; rfl)
  unfold jsTrim
  rw [ht]
  rw [show ((h0 :: t) ++ ['\n'] : List Char) = h0 :: (t ++ ['\n']) from rfl]
  rw [dropWhile_cons_of_neg _ _ _ hh]
  rw [show ((h0 :: (t ++ ['\n'])) : List Char).reverse = '\n' :: (h0 :: t).reverse from by simp]
  rw [List.dropWhile_cons, if_pos (by decide)]

theorem jsTrim_idem (s : List Char) : jsTrim (jsTrim s) = jsTrim s := by
  unfold jsTrim
  set a := s.dropWhile isWsChar with ha
  set c := a.reverse.dropWhile isWsChar with hc
  have hB : c.dropWhile isWsChar = c := by
    refine dropWhile_eq_self_of_head? _ _ ?_
    intro ch h
    exact dropWhile_head_not _ a.reverse ch (by rw [← hc]; exact h)
  have hA : c.reverse.dropWhile isWsChar = c.reverse := by
    refine dropWhile_eq_self_of_head? _ _ ?_
    intro ch h
    rw [List.head?_reverse] at h
    cases hce : c with
    | nil => rw [hce] at h; exact Option.noConfusion h
    | cons x xs =>
      have h1 : c.getLast? = a.reverse.getLast? := by
        conv_rhs => rw [← List.takeWhile_append_dropWhile (p := isWsChar) (l := a.reverse)]
        rw [List.getLast?_append_of_ne_nil]
        rw [← hc]
        rw [hce]
        exact List.cons_ne_nil _ _
      have h2 : a.reverse.getLast? = a.head? := by
        rw [List.getLast?_reverse]
      rw [h1, h2] at h
      exact dropWhile_head_not _ s ch (by rw [← ha]; exact h)
  rw [hA, List.reverse_reverse, hB]

theorem jsTrim_wrapFenced (j : List Char) : jsTrim (wrapFenced j) = wrapFenced j := by
  unfold jsTrim
  rw [wrapFenced_eq j]
  rw [dropWhile_cons_of_neg isWsChar '`' _ (by decide)]
  have hrev : (('`':: '`':: '`':: 'j':: 's':: 'o':: 'n':: '\n'::(j ++ ('\n':: '`':: '`':: '`'::[]))) : List Char).reverse
      = '`':: '`':: '`':: '\n'::(j.reverse ++ ['\n','n','o','s','j','`','`','`']) := by
    simp
  rw [hrev]
  rw [dropWhile_cons_of_neg isWsChar '`' _ (by decide)]
  rw [← hrev, List.reverse_reverse]

/-- C9 amended: for every JSON text `j` that contains no ``` fence (and has
a non-whitespace character), wrapping it as a fenced code block parses to
exactly the same problem as the raw text; `jparse` abstracts `JSON.parse`
and is assumed to fail on any text whose first non-whitespace character is a
backtick and to ignore edge whitespace. -/
theorem claim_C9_fenced_wrapping (jparse : List Char → Option RawProblem)
    (j : List Char) (P : RawProblem)
    (hgrave : ∀ s, (jsTrim s).head? = some '`' → jparse s = none)
    (htrim : ∀ s, jparse (jsTrim s) = jparse s)
    (hnf : containsFence j = false)
    (hne : j.dropWhile isWsChar ≠ [])
    (hj : jparse j = some P) :
    parseGroqResponse jparse (wrapFenced j) = parseGroqResponse jparse j := by
  unfold parseGroqResponse extractProblemJson
  have h1 : jparse (wrapFenced j) = none := by
    refine hgrave _ ?_
    rw [jsTrim_wrapFenced, wrapFenced_eq]
    rfl
  rw [h1, hj]
  rw [fenceExtract_wrap j hnf hne]
  dsimp only
  rw [jsTrim_dropWhile_newline j hne, htrim, hj]

theorem claim_C9_fenced_wrapping_witness :
    (containsFence jDemo = false ∧ jDemo.dropWhile isWsChar ≠ [] ∧
      demoJparse jDemo = some rawDemo) ∧
    (parseGroqResponse demoJparse (wrapFenced jDemo) = parseGroqResponse demoJparse jDemo ∧
     parseGroqResponse demoJparse jDemo =
       some (.multi "demo" "" [⟨"a.py", ('x' :: [])⟩] "a.py")) := by
  have hgrave : ∀ s, (jsTrim s).head? = some '`' → demoJparse s = none := by
    intro s h
    unfold demoJparse
    rw [if_neg]
    intro he
    have hts : jsTrim s = jDemo := by simpa using he
    rw [hts] at h
    rw [show jDemo.head? = some '\x7b' from rfl] at h
    exact absurd (Option.some.inj h) (by decide)
  have htrim : ∀ s, demoJparse (jsTrim s) = demoJparse s := by
    intro s
    unfold demoJparse
    rw [jsTrim_idem]
  refine ⟨⟨by decide, by decide, by decide⟩, ?_, by decide⟩
  exact claim_C9_fenced_wrapping demoJparse jDemo rawDemo hgrave htrim
    (by decide) (by decide) (by decide)

/-- C9 counterexample: the claim fails for a JSON text containing a ```
fence inside a string: `jCex` parses to a valid problem, but its fenced
wrapping does not parse at all (the lazy fence regex captures the truncated
fragment up to the inner ``` and `JSON.parse` then throws). -/
theorem claim_C9_counterexample_backtick_json :
    parseGroqResponse cexParse jCex = some cexProblem ∧
    parseGroqResponse cexParse (wrapFenced jCex) = none := by
  decide

end Performative
